import Mathlib

/-!
# backend/company.js

A shallow embedding of the company module of the timesheet backend:
the default calendar (`generateDefaultPeriods`, `generateDefaultValues`,
`isWeekend`), the default company (`constructCompany`,
`generateDefaultCompany`), the store wrappers (`findById`, `save`), the
request handlers (`restFindById`, `restUpdateCompany`) and the user
provisioning pass (`createUsersByEmails`).

Instants are JavaScript `Date` values: integer milliseconds since
1970-01-01T00:00:00.000Z.  Every `moment` call in the module is made in
UTC mode, so a calendar day is exactly 86 400 000 ms.
-/

namespace Mifort

/-! ## The `moment` calls used by the module -/

namespace Moment

/-- Milliseconds in one UTC calendar day. -/
def MS_PER_DAY : Int := 86400000

/-- The call `moment.utc(d).day()`: day of the week, 0 = Sunday up to
6 = Saturday, whatever the locale.  1970-01-01 was a Thursday (4). -/
def day (d : Int) : Int := (d / MS_PER_DAY + 4) % 7

/-- The call `moment.utc(d).weekday()`: the locale aware day of the week,
`(this.day() + 7 - this.localeData()._week.dow) % 7`, where `dow` is the
day on which the locale starts its weeks. -/
def weekday (dow : Int) (d : Int) : Int := (day d + 7 - dow) % 7

/-- The call `moment.utc(d).startOf('day')`: hours, minutes, seconds and
milliseconds set to zero. -/
def startOfDay (d : Int) : Int := d / MS_PER_DAY * MS_PER_DAY

/-- The call `moment.utc(d).startOf('week')`: start of the day, then
`this.weekday(0)`, which goes back `weekday` days. -/
def startOfWeek (dow : Int) (d : Int) : Int :=
  startOfDay d - weekday dow d * MS_PER_DAY

/-- The call `moment.utc(d).endOf('week')`, which moment computes as
`this.startOf('week').add(1, 'week').subtract(1, 'ms')`. -/
def endOfWeek (dow : Int) (d : Int) : Int :=
  startOfWeek dow d + 7 * MS_PER_DAY - 1

/-- The call `moment.utc(d).endOf('isoWeek')`: the ISO week runs Monday
through Sunday; `isoWeekday` is `this.day() || 7`, and `startOf('isoWeek')`
goes back to `isoWeekday(1)`. -/
def endOfIsoWeek (d : Int) : Int :=
  startOfDay d - ((if day d = 0 then 7 else day d) - 1) * MS_PER_DAY
    + 7 * MS_PER_DAY - 1

/-- The call `moment.utc(d).add(1, 'day')`. -/
def addDay (d : Int) : Int := d + MS_PER_DAY

/-- First day of the week of the locale in force.  The module never calls
`moment.locale`, so this is moment's built-in `en` locale, whose weeks
start on Sunday (`week.dow = 0`). -/
def localeDow : Int := 0

end Moment

/-! ## Calendar generation -/

/-- One reporting period `{start, end}`. -/
structure Period where
  start : Int
  end_ : Int
  deriving DecidableEq, Repr

/-- One pre-seeded day value `{date, dayId}`. -/
structure DayValue where
  date : Int
  dayId : Nat
  deriving DecidableEq, Repr

/-- A day type `{id, name, time, color}`. -/
structure DayType where
  id : Nat
  name : String
  time : Nat
  color : String
  deriving DecidableEq, Repr

def Weekend : DayType := { id := 1, name := "Weekend", time := 0, color := "#c5e9fb" }
def Corporate : DayType := { id := 2, name := "Corporate", time := 0, color := "#f3cce1" }
def Holiday : DayType := { id := 3, name := "Holiday", time := 0, color := "#fff9a1" }

/-- Default roles. -/
def defaultAvailablePositions : List String :=
  ["СEO", "CTO", "Designer", "Developer", "Junior Developer", "Junior QA",
   "Manager", "QA", "Senior Developer", "Senior QA", "Teamlead", "UX"]

/-- The function `isWeekend(date)`: `moment.utc(date).day() % 6 == 0`. -/
def isWeekend (date : Int) : Bool := Moment.day date % 6 == 0

/-- The `for` loop of `generateDefaultPeriods`, with `n` iterations left:
push `{start: startDate, end: endDate}`, then move both dates on. -/
def periodsLoop : Nat → Int → Int → List Period → List Period
  | 0, _, _, periods => periods
  | n + 1, startDate, endDate, periods =>
    let periods := periods ++ [{ start := startDate, end_ := endDate }]
    let startDate := Moment.addDay endDate
    let endDate := Moment.endOfWeek Moment.localeDow startDate
    periodsLoop n startDate endDate periods

/-- The function `generateDefaultPeriods()`.  The function reads the clock twice,
`moment.utc()` for the start of the first period and `moment.utc()` again
for its end; `now₁` and `now₂` are the two readings. -/
def generateDefaultPeriods (now₁ now₂ : Int) : List Period :=
  let firstPeriod : Period :=
    { start := now₁, end_ := Moment.endOfWeek Moment.localeDow now₂ }
  let periods := [firstPeriod]
  let startDate := Moment.addDay firstPeriod.end_
  let endDate := Moment.endOfWeek Moment.localeDow startDate
  periodsLoop 53 startDate endDate periods

/-- The body of the `forEach` callback of `generateDefaultValues`. -/
def pushPeriodValues (defaultValues : List DayValue) (period : Period) : List DayValue :=
  let defaultValues :=
    if isWeekend period.start then
      defaultValues ++ [{ date := period.start, dayId := Weekend.id }]
    else defaultValues
  if isWeekend period.end_ then
    defaultValues ++ [{ date := period.end_, dayId := Weekend.id }]
  else defaultValues

/-- The function `generateDefaultValues(periods)`. -/
def generateDefaultValues (periods : List Period) : List DayValue :=
  periods.foldl pushPeriodValues []

/-- The time-entry template `{date, role, time, comment}`. -/
structure Template where
  date : String
  role : String
  time : Nat
  comment : String
  deriving DecidableEq, Repr

/-- The default company returned by `constructCompany`. -/
structure DefaultCompany where
  template : Template
  periods : List Period
  dayTypes : List DayType
  defaultValues : List DayValue
  availablePositions : List String
  deriving DecidableEq, Repr

/-- The function `constructCompany(periods, defaultValues)`. -/
def constructCompany (periods : List Period) (defaultValues : List DayValue) :
    DefaultCompany :=
  { template := { date := "", role := "", time := 8, comment := "" }
    periods := periods
    dayTypes := [Weekend, Corporate, Holiday]
    defaultValues := defaultValues
    availablePositions := defaultAvailablePositions }

/-- The function `generateDefaultCompany()`, with the two clock readings of
`generateDefaultPeriods`. -/
def generateDefaultCompany (now₁ now₂ : Int) : DefaultCompany :=
  let periods := generateDefaultPeriods now₁ now₂
  let defaultValues := generateDefaultValues periods
  constructCompany periods defaultValues

/-- What the spec's words for `generateDefaultValues` describe: for each
period in order, the start entry if the start is a weekend, then the end
entry if the end is a weekend. -/
def weekendEntries (period : Period) : List DayValue :=
  (if isWeekend period.start then [{ date := period.start, dayId := 1 }] else []) ++
  (if isWeekend period.end_ then [{ date := period.end_, dayId := 1 }] else [])

/-- Week `k + 1` after the week that ends at `e`: the closed form of the
period pushed by iteration `k` of the loop. -/
def laterWeek (e : Int) (k : Nat) : Period :=
  { start := e + Moment.MS_PER_DAY + 7 * Moment.MS_PER_DAY * k,
    end_ := e + 7 * Moment.MS_PER_DAY * (k + 1) }

/-! ## Documents and the store -/

/-- A document of the store, or a JSON request body: a list of properties.
A property may hold the JavaScript value `undefined`, here `none`. -/
abbrev Doc (V : Type) := List (String × Option V)

/-- Reading a property, `doc.key`: `undefined` when the document has no
such property. -/
def Doc.get {V : Type} (doc : Doc V) (key : String) : Option V :=
  match doc with
  | [] => none
  | (k, v) :: rest => if k = key then v else Doc.get rest key

/-- Writing a property, `doc.key = value`: the property is replaced where it
stands, or added at the end. -/
def Doc.set {V : Type} (doc : Doc V) (key : String) (value : Option V) : Doc V :=
  match doc with
  | [] => [(key, value)]
  | (k, v) :: rest =>
    if k = key then (k, value) :: rest else (k, v) :: Doc.set rest key value

/-- A company as the handlers receive it (`req.body`) and store it: its
properties, with the one property the module iterates over, `emails`, kept
apart as a list of strings. -/
structure Company (V : Type) where
  fields : Doc V
  emails : Option (List String)
  deriving DecidableEq

/-- The property `company._id`. -/
def Company._id {V : Type} (company : Company V) : Option V := company.fields.get "_id"

/-- An error object handed to a callback; `code` is the property the
handlers assign. -/
structure StoreError where
  message : String
  code : Option Nat
  deriving DecidableEq, Repr

/-- The second argument the driver hands to the callback of
`companies.save`: `ops` holds the inserted documents, and is absent after
an update. -/
structure SaveResult (V : Type) where
  ops : Option (List (Company V))
  deriving DecidableEq

/-- The arguments `(err, result)` with which the driver calls the callback
of `companies.save`. -/
structure SaveReply (V : Type) where
  err : Option StoreError
  result : Option (SaveResult V)
  deriving DecidableEq

/-- The request `projects.update(query, {$set: set}, {multi: multi}, cb)`
with `query = {companyId: companyId}`. -/
structure UpdateRequest (V : Type) where
  companyId : Option V
  set : List (String × Option V)
  multi : Bool
  deriving DecidableEq

/-- What a handler does, in order, as far as the world outside can see. -/
inductive Event (V : Type) where
  /-- A line sent to the logger. -/
  | log (level : String)
  /-- An uncaught `TypeError`: a property read on, or a call of, `undefined`
  or `null`. -/
  | typeError
  /-- The error continuation of the request, `next(err)`. -/
  | next (err : StoreError)
  /-- The response `res.json(body)`. -/
  | json (body : Option (Company V))
  /-- The call `companies.save(company, {safe: true}, ...)`: the document
  sent to the company collection. -/
  | companiesSave (company : Company V)
  /-- A bulk update sent to the project collection. -/
  | projectsUpdate (request : UpdateRequest V)
  /-- The call `createUsersByEmails(company)`. -/
  | createUsersByEmails (company : Company V)
  deriving DecidableEq

/-- The JavaScript value bound to a name `next`: the error continuation
that the router hands to a request handler, or `undefined`. -/
inductive Continuation where
  | requestNext
  | undefined
  deriving DecidableEq, Repr

/-- The call `next(err)`: the continuation of the request receives the
error; calling `undefined` throws a `TypeError`. -/
def Continuation.call {V : Type} (next : Continuation) (err : StoreError) : List (Event V) :=
  match next with
  | .requestNext => [Event.next err]
  | .undefined => [Event.typeError]

/-- The function `findById(id, callback)`: `companies.findOne({_id: id}, ...)` calls back
with `(err, company)`, the reply of the store, and `findById` passes exactly
these two arguments on.  A callback that declares a third parameter finds it
`undefined`. -/
def findById {V : Type} (reply : Option StoreError × Option (Company V))
    (callback : Option StoreError → Option (Company V) → Continuation → List (Event V)) :
    List (Event V) :=
  callback reply.1 reply.2 Continuation.undefined

/-- The function `restFindById(req, res, next)`; `reply` is what the store answers to
the lookup.  The callback handed to `findById` is
`function(err, company, next)`: its third parameter has the name of the
error continuation of the request and hides it. -/
def restFindById {V : Type} (reply : Option StoreError × Option (Company V))
    (next : Continuation) : List (Event V) :=
  Event.log "debug" ::
  findById reply (fun err company next =>
    match err with
    | some err =>
      let err := { err with code := some 400 }
      next.call err
    | none =>
      Event.json company ::
      (match company.bind Company._id with
       | some _ => [Event.log "debug"]
       | none => [Event.typeError]))

/-- The function `save(company, callback)`: the company is sent to
`companies.save`; when the driver replies, the callback receives
`result.ops[0]` if the reply has `ops`, and the company that was passed in
otherwise.  Reading `result.ops` on a missing result throws. -/
def save {V : Type} (company : Company V) (reply : SaveReply V)
    (callback : Option StoreError → Option (Company V) → List (Event V)) : List (Event V) :=
  Event.companiesSave company ::
  (match reply.result with
   | none => [Event.typeError]
   | some result =>
     match result.ops with
     | some ops => callback reply.err ops.head?
     | none => callback reply.err (some company))

/-- The `$set` document that `restUpdateCompany` sends to the projects. -/
def cascadeSet {V : Type} (savedCompany : Company V) : List (String × Option V) :=
  [("template", savedCompany.fields.get "template"),
   ("periods", savedCompany.fields.get "periods"),
   ("defaultValues", savedCompany.fields.get "defaultValues"),
   ("dayTypes", savedCompany.fields.get "dayTypes"),
   ("availablePositions", savedCompany.fields.get "availablePositions")]

/-- The function `restUpdateCompany(req, res, next)` with `company = req.body`; `reply`
is what the driver answers to `companies.save`.  The bulk update of the
projects is sent and not waited for; its callback only writes a log line. -/
def restUpdateCompany {V : Type} (company : Company V) (reply : SaveReply V)
    (next : Continuation) : List (Event V) :=
  match company._id with
  | none => [Event.typeError]
  | some _ =>
    Event.log "debug" ::
    save company reply (fun err savedCompany =>
      match err with
      | some err => next.call err
      | none =>
        match savedCompany with
        | none => [Event.typeError]
        | some savedCompany =>
          Event.projectsUpdate
              { companyId := savedCompany._id, set := cascadeSet savedCompany, multi := true } ::
          Event.createUsersByEmails savedCompany ::
          Event.json (some savedCompany) ::
          (match savedCompany._id with
           | some _ => [Event.log "debug"]
           | none => [Event.typeError]))

/-- The bulk updates a handler sent to the project collection. -/
def projectsUpdates {V : Type} : List (Event V) → List (UpdateRequest V)
  | [] => []
  | Event.projectsUpdate request :: rest => request :: projectsUpdates rest
  | _ :: rest => projectsUpdates rest

/-- Modelled from the spec: the effect of `$set` on one document of the
store (MongoDB), which is not part of the module: each listed property is
written in turn. -/
def applySet {V : Type} (set : List (String × Option V)) (project : Doc V) : Doc V :=
  set.foldl (fun doc kv => doc.set kv.1 kv.2) project

/-- Modelled from the spec: the project collection's bulk conditional update
of the store (MongoDB's `update` with `$set`), which is not part of the
module.  A document matches when its `companyId` equals the one of the
query; `$set` writes each listed property and touches no other; with
`multi` every matching document is updated, without it only the first. -/
def Mongo.update {V : Type} [DecidableEq V] (request : UpdateRequest V) :
    List (Doc V) → List (Doc V)
  | [] => []
  | project :: rest =>
    if project.get "companyId" = request.companyId then
      applySet request.set project ::
        (if request.multi then Mongo.update request rest else rest)
    else project :: Mongo.update request rest

/-- Modelled from the spec: the company collection's `save` of the store
(MongoDB's `save` of a document that carries an `_id`), which is not part of
the module: the document overwrites the stored document of the same `_id` in
place, and is inserted when there is none. -/
def Mongo.save {V : Type} [DecidableEq V] (companies : List (Company V))
    (company : Company V) : List (Company V) :=
  if companies.any (fun c => decide (c._id = company._id)) then
    companies.map (fun c => if c._id = company._id then company else c)
  else companies ++ [company]

/-- The documents a handler sent to `companies.save`, in order. -/
def companiesSaves {V : Type} : List (Event V) → List (Company V)
  | [] => []
  | Event.companiesSave company :: rest => company :: companiesSaves rest
  | _ :: rest => companiesSaves rest

/-- The company collection after `restUpdateCompany(req, res, next)` ran
on it with `company = req.body`: the store takes the documents that the
handler sent to `companies.save`, provided the driver reports no error. -/
def companiesAfterUpdate {V : Type} [DecidableEq V] (companies : List (Company V))
    (company : Company V) (reply : SaveReply V) (next : Continuation) : List (Company V) :=
  match reply.err with
  | none => (companiesSaves (restUpdateCompany company reply next)).foldl Mongo.save companies
  | some _ => companies

/-- Modelled from the spec: the company collection's `findOne({_id: id})`
of the store, which is not part of the module: the first stored company of
that `_id`, if any. -/
def Mongo.findOne {V : Type} [DecidableEq V] (companies : List (Company V))
    (id : Option V) : Option (Company V) :=
  companies.find? (fun c => decide (c._id = id))

/-! ### Sample data -/

/-- A stored company owned by user 7. -/
def storedCompany : Company Nat :=
  { fields := [("_id", some 1), ("name", some 20), ("ownerId", some 7),
      ("template", some 30), ("periods", some 31), ("defaultValues", some 32),
      ("dayTypes", some 33), ("availablePositions", some 34)],
    emails := none }

/-- An update payload for the same `_id` that names user 8 as the owner. -/
def updatePayload : Company Nat :=
  { fields := [("_id", some 1), ("name", some 21), ("ownerId", some 8),
      ("template", some 40), ("periods", some 41), ("defaultValues", some 42),
      ("dayTypes", some 43), ("availablePositions", some 44)],
    emails := none }

/-- The reply of the driver to a successful update: no error, a result
without `ops`. -/
def updateOk : SaveReply Nat := { err := none, result := some { ops := none } }

/-- Two projects, the first of company 1, the second of company 2. -/
def sampleProjects : List (Doc Nat) :=
  [[("_id", some 100), ("companyId", some 1), ("name", some 50), ("template", some 30)],
   [("_id", some 101), ("companyId", some 2), ("name", some 51), ("template", some 60)]]

/-! ## User provisioning -/

/-- A user of the directory, as far as the module builds one. -/
structure User (V : Type) where
  email : String
  companyId : Option V
  displayName : Option String
  role : Option String
  deriving DecidableEq

/-- What happens during a provisioning pass, in order: the answers of the
user directory as they arrive, and what the callbacks of
`createUsersByEmails` do in return. -/
inductive ProvEvent (V : Type) where
  /-- The directory answers the lookup for `email`: `(err, dbUser)`. -/
  | lookupAnswered (email : String) (err : Bool) (dbUser : Option (User V))
  /-- The directory answers the save of `user`: with an error, or having
  stored the user. -/
  | saveAnswered (user : User V) (err : Bool)
  /-- The lookup callback logs `log.warn`. -/
  | warn (email : String)
  /-- The lookup callback calls `users.save(user, ...)`. -/
  | saveRequested (user : User V)
  /-- The save callback logs `log.error`. -/
  | logError (user : User V)
  /-- The save callback logs `log.info`. -/
  | logInfo (user : User V)
  /-- The save callback calls `mail.sendInvite(email)`. -/
  | invite (email : String)
  deriving DecidableEq

/-- The email an event is about. -/
def ProvEvent.email {V : Type} : ProvEvent V → String
  | .lookupAnswered email _ _ => email
  | .saveAnswered user _ => user.email
  | .warn email => email
  | .saveRequested user => user.email
  | .logError user => user.email
  | .logInfo user => user.email
  | .invite email => email

/-- The state of one provisioning pass.  The `forEach` of
`createUsersByEmails` only sends the lookups; every callback runs later,
when the directory answers.  `lookups` and `saves` hold the emails whose
`users.findByExample` and `users.save` calls are still unanswered. -/
structure ProvState (V : Type) where
  directory : List (User V)
  lookups : List String
  saves : List String
  trace : List (ProvEvent V)
  deriving DecidableEq

/-- The object `user = {email: email, companyId: company._id}` that the
`forEach` callback builds and passes to `users.findByExample`. -/
def exampleUser {V : Type} (company : Company V) (email : String) : User V :=
  { email := email, companyId := company._id, displayName := none, role := none }

/-- The same object after the lookup callback assigned
`user.displayName = email` and `user.role = authorization.EMPLOYEE_ROLE`:
the user passed to `users.save`. -/
def newUser {V : Type} (EMPLOYEE_ROLE : String) (company : Company V) (email : String) :
    User V :=
  { exampleUser company email with displayName := some email, role := some EMPLOYEE_ROLE }

/-- Modelled from the spec: `users.findByExample({email, companyId})` of the
user directory, which is not part of the module: the first user of the
directory with that email and that company id, if any. -/
def findByExample {V : Type} [DecidableEq V] (directory : List (User V))
    (example_ : User V) : Option (User V) :=
  directory.find? (fun u => decide (u.email = example_.email ∧ u.companyId = example_.companyId))

/-- Modelled from the spec: `users.save(user)` of the user directory, which
is not part of the module: the directory gains the user. -/
def usersSave {V : Type} (directory : List (User V)) (user : User V) : List (User V) :=
  directory ++ [user]

/-- The function `createUsersByEmails(company)` up to the return of `forEach`: when
`company.emails` is set, one lookup is sent for each email, in order. -/
def createUsersByEmails {V : Type} (company : Company V) (directory : List (User V)) :
    ProvState V :=
  match company.emails with
  | some emails => { directory := directory, lookups := emails, saves := [], trace := [] }
  | none => { directory := directory, lookups := [], saves := [], trace := [] }

/-- An answer of the directory: to the lookup or to the save that is
outstanding for an email, with or without an error. -/
inductive Answer where
  | lookup (email : String) (fails : Bool)
  | save (email : String) (fails : Bool)
  deriving DecidableEq, Repr

/-- The email whose call is answered. -/
def Answer.email : Answer → String
  | .lookup email _ => email
  | .save email _ => email

/-- The callback of `users.findByExample` for `email`, run on the answer
`(err, dbUser)`: on an error a warning is logged; when a user came back
nothing is done; otherwise the user is completed and `users.save` is
called. -/
def lookupCallback {V : Type} (EMPLOYEE_ROLE : String) (company : Company V)
    (s : ProvState V) (email : String) (err : Bool) (dbUser : Option (User V)) :
    ProvState V :=
  if err then
    { s with trace := s.trace ++ [ProvEvent.warn email] }
  else
    match dbUser with
    | some _ => s
    | none =>
      { s with
        saves := s.saves ++ [email]
        trace := s.trace ++ [ProvEvent.saveRequested (newUser EMPLOYEE_ROLE company email)] }

/-- The callback of `users.save` for `email`, run on the answer
`(err, savedUser)`: on an error the error is logged; otherwise the saved
user is logged and `mail.sendInvite(email)` is called. -/
def saveCallback {V : Type} (s : ProvState V) (email : String) (err : Bool)
    (savedUser : User V) : ProvState V :=
  if err then
    { s with trace := s.trace ++ [ProvEvent.logError savedUser] }
  else
    { s with trace := s.trace ++ [ProvEvent.logInfo savedUser, ProvEvent.invite email] }

/-- One answer of the directory arrives.  An answer to a call that is not
outstanding changes nothing.  A lookup is answered from the directory as it
stands at that moment; a save that does not fail adds the user.  The answer
is recorded in the trace, then the callback of the call runs on it. -/
def answer {V : Type} [DecidableEq V] (EMPLOYEE_ROLE : String) (company : Company V)
    (s : ProvState V) : Answer → ProvState V
  | .lookup email fails =>
    if email ∈ s.lookups then
      let dbUser := if fails then none else findByExample s.directory (exampleUser company email)
      let s := { s with
        lookups := s.lookups.erase email
        trace := s.trace ++ [ProvEvent.lookupAnswered email fails dbUser] }
      lookupCallback EMPLOYEE_ROLE company s email fails dbUser
    else s
  | .save email fails =>
    if email ∈ s.saves then
      let user := newUser EMPLOYEE_ROLE company email
      let s := { s with
        saves := s.saves.erase email
        directory := if fails then s.directory else usersSave s.directory user
        trace := s.trace ++ [ProvEvent.saveAnswered user fails] }
      saveCallback s email fails user
    else s

/-- A provisioning pass: `createUsersByEmails(company)` on a directory,
followed by the answers of the directory in the order they arrive. -/
def provision {V : Type} [DecidableEq V] (EMPLOYEE_ROLE : String) (company : Company V)
    (directory : List (User V)) (answers : List Answer) : ProvState V :=
  answers.foldl (answer EMPLOYEE_ROLE company) (createUsersByEmails company directory)

/-- What a pass has done about one email: the users of that email in the
directory, the calls for it that are still unanswered, and the events about
it. -/
def outcomeFor {V : Type} (email : String) (s : ProvState V) :
    List (User V) × Nat × Nat × List (ProvEvent V) :=
  (s.directory.filter (fun u => decide (u.email = email)),
   s.lookups.count email,
   s.saves.count email,
   s.trace.filter (fun ev => decide (ev.email = email)))

/-- A company that invites two people. -/
def invitingCompany : Company Nat :=
  { fields := [("_id", some 1), ("name", some 20)], emails := some ["a@x.com", "b@x.com"] }

/-- A directory that already holds the first of them. -/
def sampleDirectory : List (User Nat) :=
  [{ email := "a@x.com", companyId := some 1, displayName := some "a@x.com",
     role := some "Employee" }]

/-- The user a successful save answer has stored. -/
def ProvEvent.savedUser? {V : Type} : ProvEvent V → Option (User V)
  | .saveAnswered user false => some user
  | _ => none

/-- The emails a company lists: none when `company.emails` is not set. -/
def Company.emailList {V : Type} (company : Company V) : List String :=
  company.emails.getD []

/-- The bookkeeping that every state of a provisioning pass satisfies, for
the pass of `company` started on the directory `directory₀`:
* each email has at most as many lookups outstanding, failed or answered
  "no such user" as the company lists it;
* `users.save` was called once per "no such user" answer, with the completed
  user;
* each requested save is outstanding, answered with an error or answered
  with success;
* one invite was sent per successful save answer;
* the directory is the initial one followed by the users stored;
* a "no such user" answer means the initial directory had no such user. -/
structure ProvInv {V : Type} [DecidableEq V] (EMPLOYEE_ROLE : String) (company : Company V)
    (directory₀ : List (User V)) (s : ProvState V) : Prop where
  lookups_le : ∀ e : String,
    s.lookups.count e + s.trace.count (ProvEvent.lookupAnswered e true none)
      + s.trace.count (ProvEvent.lookupAnswered e false none) ≤ company.emailList.count e
  requested : ∀ e : String,
    s.trace.count (ProvEvent.saveRequested (newUser EMPLOYEE_ROLE company e))
      = s.trace.count (ProvEvent.lookupAnswered e false none)
  saves_eq : ∀ e : String,
    s.saves.count e
      + s.trace.count (ProvEvent.saveAnswered (newUser EMPLOYEE_ROLE company e) true)
      + s.trace.count (ProvEvent.saveAnswered (newUser EMPLOYEE_ROLE company e) false)
      = s.trace.count (ProvEvent.saveRequested (newUser EMPLOYEE_ROLE company e))
  invites_eq : ∀ e : String,
    s.trace.count (ProvEvent.invite e)
      = s.trace.count (ProvEvent.saveAnswered (newUser EMPLOYEE_ROLE company e) false)
  users_eq : ∀ u : User V,
    (ProvEvent.saveRequested u ∈ s.trace ∨ ProvEvent.saveAnswered u true ∈ s.trace
      ∨ ProvEvent.saveAnswered u false ∈ s.trace) → u = newUser EMPLOYEE_ROLE company u.email
  directory_eq : s.directory = directory₀ ++ s.trace.filterMap ProvEvent.savedUser?
  absent_none : ∀ e : String, ProvEvent.lookupAnswered e false none ∈ s.trace →
    findByExample directory₀ (exampleUser company e) = none
/-! ## Calendar lemmas -/

section Calendar
open Moment

theorem endOfWeek_locale_ge (d : Int) : d ≤ endOfWeek localeDow d := by
  simp only [endOfWeek, startOfWeek, startOfDay, weekday, day, MS_PER_DAY, localeDow]
  omega

theorem endOfWeek_locale_next (d : Int) :
    endOfWeek localeDow (addDay (endOfWeek localeDow d))
      = endOfWeek localeDow d + 7 * MS_PER_DAY := by
  simp only [endOfWeek, startOfWeek, startOfDay, weekday, day, MS_PER_DAY, localeDow, addDay]
  omega

theorem periodsLoop_eq (n : Nat) : ∀ (x : Int) (acc : List Period),
    periodsLoop n (addDay (endOfWeek localeDow x))
        (endOfWeek localeDow (addDay (endOfWeek localeDow x))) acc
      = acc ++ (List.range n).map (laterWeek (endOfWeek localeDow x)) := by
  induction n with
  | zero => intro x acc; simp [periodsLoop]
  | succ n ih =>
    intro x acc
    rw [periodsLoop]
    rw [ih (addDay (endOfWeek localeDow x)), List.range_succ_eq_map, List.map_cons,
      List.map_map, List.append_assoc]
    have h := endOfWeek_locale_next x
    simp only [addDay, MS_PER_DAY] at h
    congr 1
    simp only [List.singleton_append]
    congr 1
    · simp only [laterWeek, addDay, MS_PER_DAY, Period.mk.injEq]
      constructor <;> push_cast <;> omega
    · apply List.map_congr_left
      intro k _
      simp only [laterWeek, addDay, MS_PER_DAY, Function.comp, Period.mk.injEq]
      constructor <;> push_cast <;> omega

theorem generateDefaultPeriods_eq (now₁ now₂ : Int) :
    generateDefaultPeriods now₁ now₂
      = { start := now₁, end_ := endOfWeek localeDow now₂ }
          :: (List.range 53).map (laterWeek (endOfWeek localeDow now₂)) := by
  simp only [generateDefaultPeriods]
  rw [periodsLoop_eq]
  rfl

theorem isWeekend_endOfWeek_locale (d : Int) : isWeekend (endOfWeek localeDow d) = true := by
  simp only [isWeekend, endOfWeek, startOfWeek, startOfDay, weekday, day, MS_PER_DAY, localeDow,
    beq_iff_eq]
  omega

theorem isWeekend_addDay_endOfWeek_locale (d : Int) :
    isWeekend (addDay (endOfWeek localeDow d)) = true := by
  simp only [isWeekend, endOfWeek, startOfWeek, startOfDay, weekday, day, MS_PER_DAY, localeDow,
    addDay, beq_iff_eq]
  omega

theorem generateDefaultValues_append (xs ys : List Period) (acc : List DayValue) :
    List.foldl pushPeriodValues acc (xs ++ ys)
      = List.foldl pushPeriodValues (List.foldl pushPeriodValues acc xs) ys := by
  simp

theorem pushPeriodValues_eq (acc : List DayValue) (p : Period) :
    pushPeriodValues acc p = acc ++ weekendEntries p := by
  simp only [pushPeriodValues, weekendEntries, Weekend]
  by_cases h1 : isWeekend p.start = true <;> by_cases h2 : isWeekend p.end_ = true <;> simp [h1, h2]

theorem foldl_pushPeriodValues (periods : List Period) : ∀ acc : List DayValue,
    List.foldl pushPeriodValues acc periods = acc ++ periods.flatMap weekendEntries := by
  induction periods with
  | nil => intro acc; simp
  | cons p ps ih =>
    intro acc
    simp only [List.foldl_cons, ih, pushPeriodValues_eq, List.flatMap_cons,
      List.append_assoc]

theorem weekendEntries_length_le (p : Period) : (weekendEntries p).length ≤ 2 := by
  simp only [weekendEntries]
  by_cases h1 : isWeekend p.start = true <;> by_cases h2 : isWeekend p.end_ = true <;> simp [h1, h2]

theorem mem_weekendEntries {p : Period} {v : DayValue} (h : v ∈ weekendEntries p) :
    isWeekend v.date = true ∧ v.dayId = Weekend.id ∧ (v.date = p.start ∨ v.date = p.end_) := by
  simp only [weekendEntries, List.mem_append] at h
  rcases h with h | h
  · by_cases h1 : isWeekend p.start = true
    · simp only [h1, if_true, List.mem_singleton] at h
      subst h
      exact ⟨h1, rfl, Or.inl rfl⟩
    · simp [h1] at h
  · by_cases h2 : isWeekend p.end_ = true
    · simp only [h2, if_true, List.mem_singleton] at h
      subst h
      exact ⟨h2, rfl, Or.inr rfl⟩
    · simp [h2] at h

theorem flatMap_weekendEntries_length_le (periods : List Period) :
    (periods.flatMap weekendEntries).length ≤ 2 * periods.length := by
  induction periods with
  | nil => simp
  | cons p ps ih =>
    have := weekendEntries_length_le p
    simp only [List.flatMap_cons, List.length_append, List.length_cons]
    omega


theorem laterWeek_facts (x : Int) (k : Nat) :
    isWeekend (laterWeek (endOfWeek localeDow x) k).start = true ∧
    isWeekend (laterWeek (endOfWeek localeDow x) k).end_ = true ∧
    weekday localeDow (laterWeek (endOfWeek localeDow x) k).start = 0 ∧
    weekday localeDow (laterWeek (endOfWeek localeDow x) k).end_ = 6 ∧
    (laterWeek (endOfWeek localeDow x) k).end_
      = endOfWeek localeDow (laterWeek (endOfWeek localeDow x) k).start ∧
    (laterWeek (endOfWeek localeDow x) k).start ≤ (laterWeek (endOfWeek localeDow x) k).end_ := by
  simp only [laterWeek, isWeekend, endOfWeek, startOfWeek, startOfDay, weekday, day, MS_PER_DAY,
    localeDow, beq_iff_eq]
  refine ⟨?_, ?_, ?_, ?_, ?_, ?_⟩ <;> omega

theorem weekendEntries_laterWeek_length (x : Int) (k : Nat) :
    (weekendEntries (laterWeek (endOfWeek localeDow x) k)).length = 2 := by
  obtain ⟨h1, h2, _⟩ := laterWeek_facts x k
  simp [weekendEntries, h1, h2]

theorem flatMap_laterWeek_length (x : Int) (l : List Nat) :
    ((l.map (laterWeek (endOfWeek localeDow x))).flatMap weekendEntries).length
      = 2 * l.length := by
  induction l with
  | nil => simp
  | cons k ks ih =>
    have := weekendEntries_laterWeek_length x k
    simp only [List.map_cons, List.flatMap_cons, List.length_append, List.length_cons]
    omega

theorem generateDefaultValues_flatMap (periods : List Period) :
    generateDefaultValues periods = periods.flatMap weekendEntries := by
  simp [generateDefaultValues, foldl_pushPeriodValues]

theorem dayIndex_cases (d : Int) :
    (d / 86400000 + 4) % 7 = 0 ∨ (d / 86400000 + 4) % 7 = 1 ∨ (d / 86400000 + 4) % 7 = 2 ∨
    (d / 86400000 + 4) % 7 = 3 ∨ (d / 86400000 + 4) % 7 = 4 ∨ (d / 86400000 + 4) % 7 = 5 ∨
    (d / 86400000 + 4) % 7 = 6 := by
  omega

end Calendar

/-! ## Store lemmas -/

section Store
variable {V : Type}

theorem Doc.get_set_same (doc : Doc V) (key : String) (value : Option V) :
    (doc.set key value).get key = value := by
  induction doc with
  | nil => simp [Doc.set, Doc.get]
  | cons kv rest ih =>
    obtain ⟨k, v⟩ := kv
    by_cases h : k = key
    · simp [Doc.set, Doc.get, h]
    · simp [Doc.set, Doc.get, h, ih]

theorem Doc.get_set_ne (doc : Doc V) {key key' : String} (value : Option V)
    (hne : key' ≠ key) : (doc.set key value).get key' = doc.get key' := by
  induction doc with
  | nil => simp [Doc.set, Doc.get, Ne.symm hne]
  | cons kv rest ih =>
    obtain ⟨k, v⟩ := kv
    by_cases h : k = key
    · subst h
      simp [Doc.set, Doc.get, Ne.symm hne]
    · by_cases h' : k = key'
      · subst h'
        simp [Doc.set, Doc.get, h]
      · simp [Doc.set, Doc.get, h, h', ih]

theorem applySet_get_other (set : List (String × Option V)) :
    ∀ (project : Doc V) (key : String), (∀ kv ∈ set, kv.1 ≠ key) →
      (applySet set project).get key = project.get key := by
  induction set with
  | nil => intro project key _; rfl
  | cons kv rest ih =>
    intro project key h
    simp only [applySet, List.foldl_cons]
    have h1 : key ≠ kv.1 := fun e => h kv (List.mem_cons_self _ _) e.symm
    have h2 := ih (project.set kv.1 kv.2) key (fun kv' hkv' => h kv' (List.mem_cons_of_mem _ hkv'))
    simp only [applySet] at h2
    rw [h2, Doc.get_set_ne _ _ h1]

theorem Mongo.update_multi [DecidableEq V] (request : UpdateRequest V)
    (hmulti : request.multi = true) (projects : List (Doc V)) :
    Mongo.update request projects
      = projects.map (fun project =>
          if project.get "companyId" = request.companyId then applySet request.set project
          else project) := by
  induction projects with
  | nil => rfl
  | cons project rest ih =>
    by_cases h : project.get "companyId" = request.companyId
    · simp [Mongo.update, h, hmulti, ih, applySet]
    · simp [Mongo.update, h, ih]

theorem Mongo.findOne_save [DecidableEq V] (company : Company V) :
    ∀ companies : List (Company V),
      Mongo.findOne (Mongo.save companies company) company._id = some company := by
  intro companies
  unfold Mongo.save
  split
  · rename_i hany
    induction companies with
    | nil => simp at hany
    | cons c rest ih =>
      by_cases hc : c._id = company._id
      · simp [Mongo.findOne, hc]
      · have hrest : rest.any (fun c => decide (c._id = company._id)) = true := by
          simpa [hc] using hany
        have := ih hrest
        simp only [Mongo.findOne] at this
        simp [Mongo.findOne, hc, this]
  · rename_i hany
    have hnone : ∀ c ∈ companies, ¬ c._id = company._id := by
      intro c hc e
      apply hany
      simp only [List.any_eq_true, decide_eq_true_eq]
      exact ⟨c, hc, e⟩
    have hfind : companies.find? (fun c => decide (c._id = company._id)) = none := by
      rw [List.find?_eq_none]
      intro c hc
      simpa using hnone c hc
    simp [Mongo.findOne, List.find?_append, hfind]

theorem restUpdateCompany_of_json (company savedCompany : Company V)
    (reply : SaveReply V) (next : Continuation)
    (hsaved : Event.json (some savedCompany) ∈ restUpdateCompany company reply next) :
    reply.err = none ∧ company._id ≠ none ∧
    restUpdateCompany company reply next
      = Event.log "debug" ::
        Event.companiesSave company ::
        Event.projectsUpdate
          { companyId := savedCompany._id, set := cascadeSet savedCompany, multi := true } ::
        Event.createUsersByEmails savedCompany ::
        Event.json (some savedCompany) ::
        (match savedCompany._id with
         | some _ => [Event.log "debug"]
         | none => [Event.typeError]) := by
  unfold restUpdateCompany at hsaved ⊢
  cases hid : company._id with
  | none => simp [hid] at hsaved
  | some id =>
    simp only [hid] at hsaved ⊢
    unfold save at hsaved ⊢
    cases hres : reply.result with
    | none => simp [hres] at hsaved
    | some result =>
      simp only [hres] at hsaved ⊢
      cases herr : reply.err with
      | some err =>
        cases next <;> cases hops : result.ops <;>
          simp [herr, hops, Continuation.call] at hsaved
      | none =>
        cases hops : result.ops with
        | none =>
          simp only [herr, hops] at hsaved ⊢
          cases hsid : savedCompany._id <;> cases hcid : company._id <;>
            simp_all
        | some ops =>
          simp only [herr, hops] at hsaved ⊢
          cases hhead : ops.head? with
          | none => simp [hhead] at hsaved
          | some c =>
            simp only [hhead] at hsaved ⊢
            cases hsid : savedCompany._id <;> cases hcid : c._id <;> simp_all

/-- A payload that carries an `_id` is sent to `companies.save` once, as it
came in. -/
theorem companiesSaves_restUpdateCompany (company : Company V) (reply : SaveReply V)
    (next : Continuation) (hid : company._id ≠ none) :
    companiesSaves (restUpdateCompany company reply next) = [company] := by
  unfold restUpdateCompany
  cases hcid : company._id with
  | none => exact absurd hcid hid
  | some id =>
    simp only []
    unfold save
    cases hres : reply.result with
    | none => simp [companiesSaves]
    | some result =>
      cases hops : result.ops with
      | none =>
        cases herr : reply.err with
        | some err => cases next <;> simp [companiesSaves, Continuation.call, hops]
        | none => simp [companiesSaves, hcid, hops]
      | some ops =>
        cases herr : reply.err with
        | some err => cases next <;> simp [companiesSaves, Continuation.call, hops]
        | none =>
          cases hhead : ops.head? with
          | none => simp [companiesSaves, hops, hhead]
          | some c => cases hc : c._id <;> simp [companiesSaves, hc, hops, hhead]

theorem applySet_cascadeSet_get (savedCompany : Company V) (project : Doc V) :
    (applySet (cascadeSet savedCompany) project).get "template"
      = savedCompany.fields.get "template" ∧
    (applySet (cascadeSet savedCompany) project).get "periods"
      = savedCompany.fields.get "periods" ∧
    (applySet (cascadeSet savedCompany) project).get "defaultValues"
      = savedCompany.fields.get "defaultValues" ∧
    (applySet (cascadeSet savedCompany) project).get "dayTypes"
      = savedCompany.fields.get "dayTypes" ∧
    (applySet (cascadeSet savedCompany) project).get "availablePositions"
      = savedCompany.fields.get "availablePositions" := by
  simp only [applySet, cascadeSet, List.foldl_cons, List.foldl_nil]
  refine ⟨?_, ?_, ?_, ?_, ?_⟩
  · rw [Doc.get_set_ne _ _ (by decide), Doc.get_set_ne _ _ (by decide),
      Doc.get_set_ne _ _ (by decide), Doc.get_set_ne _ _ (by decide), Doc.get_set_same]
  · rw [Doc.get_set_ne _ _ (by decide), Doc.get_set_ne _ _ (by decide),
      Doc.get_set_ne _ _ (by decide), Doc.get_set_same]
  · rw [Doc.get_set_ne _ _ (by decide), Doc.get_set_ne _ _ (by decide), Doc.get_set_same]
  · rw [Doc.get_set_ne _ _ (by decide), Doc.get_set_same]
  · rw [Doc.get_set_same]

end Store

/-! ## Provisioning lemmas -/

section Provisioning
variable {V : Type}

theorem newUser_email (role : String) (company : Company V) (e : String) :
    (newUser role company e).email = e := rfl

theorem newUser_inj (role : String) (company : Company V) {e e' : String} :
    newUser role company e = newUser role company e' ↔ e = e' := by
  constructor
  · intro h
    have := congrArg User.email h
    simpa [newUser_email] using this
  · intro h
    rw [h]

variable [DecidableEq V]

theorem provInv_init (role : String) (company : Company V) (directory₀ : List (User V)) :
    ProvInv role company directory₀ (createUsersByEmails company directory₀) := by
  unfold createUsersByEmails
  cases h : company.emails with
  | none =>
    constructor <;> simp [Company.emailList, h]
  | some es =>
    constructor <;> simp [Company.emailList, h]

theorem provInv_answer (role : String) (company : Company V) (directory₀ : List (User V))
    (s : ProvState V) (a : Answer) (inv : ProvInv role company directory₀ s) :
    ProvInv role company directory₀ (answer role company s a) := by
  cases a with
  | lookup email fails =>
    unfold answer
    by_cases hmem : email ∈ s.lookups
    · simp only [hmem, if_true]
      have hpos : 1 ≤ s.lookups.count email := List.one_le_count_iff.mpr hmem
      cases fails with
      | true =>
        simp only [lookupCallback, if_true]
        constructor
        · intro e
          have := inv.lookups_le e
          by_cases he : e = email
          · subst he
            simp [List.count_cons]
            omega
          · simp [List.count_cons, he, Ne.symm he, List.count_erase_of_ne he]
            omega
        · intro e
          have := inv.requested e
          simpa [List.count_cons] using this
        · intro e
          have := inv.saves_eq e
          simpa [List.count_cons] using this
        · intro e
          have := inv.invites_eq e
          simpa [List.count_cons] using this
        · intro u hu
          apply inv.users_eq u
          simpa using hu
        · have := inv.directory_eq
          simpa [ProvEvent.savedUser?] using this
        · intro e he
          apply inv.absent_none e
          simpa using he
      | false =>
        simp only [lookupCallback, Bool.false_eq_true, if_false]
        cases hfind : findByExample s.directory (exampleUser company email) with
        | some dbUser =>
          simp only []
          constructor
          · intro e
            have := inv.lookups_le e
            by_cases he : e = email
            · subst he
              simp [List.count_cons]
              omega
            · simp [List.count_cons, he, Ne.symm he, List.count_erase_of_ne he]
              omega
          · intro e
            have := inv.requested e
            simpa [List.count_cons] using this
          · intro e
            have := inv.saves_eq e
            simpa [List.count_cons] using this
          · intro e
            have := inv.invites_eq e
            simpa [List.count_cons] using this
          · intro u hu
            apply inv.users_eq u
            simpa using hu
          · have := inv.directory_eq
            simpa [ProvEvent.savedUser?] using this
          · intro e he
            apply inv.absent_none e
            simpa using he
        | none =>
          simp only []
          constructor
          · intro e
            have := inv.lookups_le e
            by_cases he : e = email
            · subst he
              simp [List.count_cons]
              omega
            · simp [List.count_cons, he, Ne.symm he, List.count_erase_of_ne he]
              omega
          · intro e
            have := inv.requested e
            by_cases he : e = email
            · subst he
              simp [List.count_cons]
              omega
            · simp [List.count_cons, he, Ne.symm he, newUser_inj]
              omega
          · intro e
            have := inv.saves_eq e
            by_cases he : e = email
            · subst he
              simp [List.count_cons]
              omega
            · simp [List.count_cons, he, Ne.symm he, newUser_inj]
              omega
          · intro e
            have := inv.invites_eq e
            simpa [List.count_cons] using this
          · intro u hu
            simp only [List.mem_append, List.mem_cons, List.mem_singleton, List.not_mem_nil,
              or_false, reduceCtorEq, false_or, ProvEvent.saveRequested.injEq] at hu
            rcases hu with (hu | hu) | hu | hu
            · exact inv.users_eq u (Or.inl hu)
            · subst hu
              rfl
            · exact inv.users_eq u (Or.inr (Or.inl hu))
            · exact inv.users_eq u (Or.inr (Or.inr hu))
          · have := inv.directory_eq
            simpa [ProvEvent.savedUser?] using this
          · intro e he
            simp only [List.mem_append, List.mem_cons, List.mem_singleton, List.not_mem_nil,
              or_false, reduceCtorEq, ProvEvent.lookupAnswered.injEq, and_true, true_and] at he
            rcases he with he | he
            · exact inv.absent_none e he
            · subst he
              have hdir := inv.directory_eq
              simp only [findByExample] at hfind ⊢
              rw [hdir, List.find?_append] at hfind
              cases h0 : List.find? (fun u => decide (u.email = (exampleUser company e).email ∧
                  u.companyId = (exampleUser company e).companyId)) directory₀ with
              | none => rfl
              | some u =>
                rw [h0] at hfind
                simp at hfind
    · simp only [hmem, if_false]
      exact inv
  | save email fails =>
    unfold answer
    by_cases hmem : email ∈ s.saves
    · simp only [hmem, if_true]
      have hpos : 1 ≤ s.saves.count email := List.one_le_count_iff.mpr hmem
      cases fails with
      | true =>
        simp only [saveCallback, if_true]
        constructor
        · intro e
          have := inv.lookups_le e
          simpa [List.count_cons] using this
        · intro e
          have := inv.requested e
          simpa [List.count_cons] using this
        · intro e
          have := inv.saves_eq e
          by_cases he : e = email
          · subst he
            simp [List.count_cons]
            omega
          · simp [List.count_cons, he, Ne.symm he, newUser_inj, List.count_erase_of_ne he]
            omega
        · intro e
          have := inv.invites_eq e
          simpa [List.count_cons] using this
        · intro u hu
          simp only [List.mem_append, List.mem_cons, List.mem_singleton, List.not_mem_nil,
            or_false, reduceCtorEq, ProvEvent.saveAnswered.injEq, and_true, and_false] at hu
          rcases hu with hu | (hu | hu) | hu
          · exact inv.users_eq u (Or.inl hu)
          · exact inv.users_eq u (Or.inr (Or.inl hu))
          · subst hu
            rfl
          · exact inv.users_eq u (Or.inr (Or.inr hu))
        · have := inv.directory_eq
          simpa [ProvEvent.savedUser?] using this
        · intro e he
          apply inv.absent_none e
          simpa using he
      | false =>
        simp only [saveCallback, Bool.false_eq_true, if_false]
        constructor
        · intro e
          have := inv.lookups_le e
          simpa [List.count_cons] using this
        · intro e
          have := inv.requested e
          simpa [List.count_cons] using this
        · intro e
          have := inv.saves_eq e
          by_cases he : e = email
          · subst he
            simp [List.count_cons]
            omega
          · simp [List.count_cons, he, Ne.symm he, newUser_inj, List.count_erase_of_ne he]
            omega
        · intro e
          have := inv.invites_eq e
          by_cases he : e = email
          · subst he
            simp [List.count_cons]
            omega
          · simp [List.count_cons, he, Ne.symm he, newUser_inj]
            omega
        · intro u hu
          simp only [List.mem_append, List.mem_cons, List.mem_singleton, List.not_mem_nil,
            or_false, reduceCtorEq, ProvEvent.saveAnswered.injEq, and_true, and_false] at hu
          rcases hu with hu | hu | (hu | hu)
          · exact inv.users_eq u (Or.inl hu)
          · exact inv.users_eq u (Or.inr (Or.inl hu))
          · exact inv.users_eq u (Or.inr (Or.inr hu))
          · subst hu
            rfl
        · have := inv.directory_eq
          simp [ProvEvent.savedUser?, usersSave, this]
        · intro e he
          apply inv.absent_none e
          simpa using he
    · simp only [hmem, if_false]
      exact inv

theorem provInv_provision (role : String) (company : Company V) (directory₀ : List (User V))
    (answers : List Answer) :
    ProvInv role company directory₀ (provision role company directory₀ answers) := by
  unfold provision
  have h : ∀ s : ProvState V, ProvInv role company directory₀ s →
      ProvInv role company directory₀ (answers.foldl (answer role company) s) := by
    induction answers with
    | nil => intro s hs; exact hs
    | cons a rest ih =>
      intro s hs
      exact ih _ (provInv_answer role company directory₀ s a hs)
  exact h _ (provInv_init role company directory₀)

theorem findByExample_filter (directory : List (User V)) (company : Company V) (e : String) :
    findByExample directory (exampleUser company e)
      = findByExample (directory.filter (fun u => decide (u.email = e)))
          (exampleUser company e) := by
  induction directory with
  | nil => rfl
  | cons u rest ih =>
    simp only [findByExample] at ih ⊢
    by_cases hu : u.email = e
    · by_cases hc : u.companyId = (exampleUser company e).companyId
      · simp [List.filter_cons, hu, hc, exampleUser]
      · simp only [List.filter_cons, hu, decide_True, if_true, List.find?_cons]
        simp only [exampleUser] at hc ⊢
        simp [hc, ih, exampleUser]
    · simp only [List.filter_cons, hu, decide_False, List.find?_cons]
      simp only [exampleUser] at ih ⊢
      simp [hu]

theorem outcomeFor_answer_other (role : String) (company : Company V) (s : ProvState V)
    (a : Answer) (e : String) (hne : a.email ≠ e) :
    outcomeFor e (answer role company s a) = outcomeFor e s := by
  cases a with
  | lookup email fails =>
    simp only [Answer.email] at hne
    unfold answer
    by_cases hmem : email ∈ s.lookups
    · simp only [hmem, if_true]
      cases fails with
      | true =>
        simp [lookupCallback, outcomeFor, List.filter_append, List.filter_cons, ProvEvent.email,
          hne, List.count_erase_of_ne (Ne.symm hne)]
      | false =>
        cases hfind : findByExample s.directory (exampleUser company email) <;>
        simp [lookupCallback, outcomeFor, List.filter_append, List.filter_cons, ProvEvent.email,
          hne, List.count_erase_of_ne (Ne.symm hne), newUser_email, hfind, List.count_cons]
    · simp [hmem]
  | save email fails =>
    simp only [Answer.email] at hne
    unfold answer
    by_cases hmem : email ∈ s.saves
    · simp only [hmem, if_true]
      cases fails <;>
      simp [saveCallback, outcomeFor, List.filter_append, List.filter_cons, ProvEvent.email,
        hne, List.count_erase_of_ne (Ne.symm hne), newUser_email, usersSave]
    · simp [hmem]

theorem mem_iff_of_count_eq {l l' : List String} {e : String}
    (h : l.count e = l'.count e) : e ∈ l ↔ e ∈ l' := by
  rw [← List.one_le_count_iff, ← List.one_le_count_iff, h]

theorem outcomeFor_answer_same (role : String) (company : Company V) (s s' : ProvState V)
    (a : Answer) (h : outcomeFor a.email s = outcomeFor a.email s') :
    outcomeFor a.email (answer role company s a)
      = outcomeFor a.email (answer role company s' a) := by
  simp only [outcomeFor, Prod.mk.injEq] at h
  obtain ⟨hd, hl, hs, ht⟩ := h
  cases a with
  | lookup email fails =>
    simp only [Answer.email] at hd hl hs ht ⊢
    unfold answer
    have hiff := mem_iff_of_count_eq hl
    by_cases hmem : email ∈ s.lookups
    · have hmem' := hiff.mp hmem
      simp only [hmem, hmem', if_true]
      cases fails with
      | true =>
        simp [lookupCallback, outcomeFor, List.filter_append, hd, hl, hs, ht]
      | false =>
        have hfind : findByExample s.directory (exampleUser company email)
            = findByExample s'.directory (exampleUser company email) := by
          rw [findByExample_filter s.directory, findByExample_filter s'.directory, hd]
        simp only [Bool.false_eq_true, if_false, hfind]
        cases findByExample s'.directory (exampleUser company email) <;>
        simp [lookupCallback, outcomeFor, List.filter_append, hd, hl, hs, ht]
    · have hmem' : email ∉ s'.lookups := fun h' => hmem (hiff.mpr h')
      simp [hmem, hmem', outcomeFor, hd, hl, hs, ht]
  | save email fails =>
    simp only [Answer.email] at hd hl hs ht ⊢
    unfold answer
    have hiff := mem_iff_of_count_eq hs
    by_cases hmem : email ∈ s.saves
    · have hmem' := hiff.mp hmem
      simp only [hmem, hmem', if_true]
      cases fails <;>
      simp [saveCallback, outcomeFor, List.filter_append, usersSave, hd, hl, hs, ht]
    · have hmem' : email ∉ s'.saves := fun h' => hmem (hiff.mpr h')
      simp [hmem, hmem', outcomeFor, hd, hl, hs, ht]

theorem outcomeFor_foldl_filter (role : String) (company : Company V) (e : String)
    (answers : List Answer) : ∀ s s' : ProvState V, outcomeFor e s = outcomeFor e s' →
      outcomeFor e (answers.foldl (answer role company) s)
        = outcomeFor e
            ((answers.filter (fun a => decide (a.email = e))).foldl (answer role company) s') := by
  induction answers with
  | nil => intro s s' h; exact h
  | cons a rest ih =>
    intro s s' h
    by_cases ha : a.email = e
    · simp only [List.foldl_cons, List.filter_cons, ha, decide_True, if_true]
      apply ih
      subst ha
      exact outcomeFor_answer_same role company s s' a h
    · simp only [List.foldl_cons, List.filter_cons, ha, decide_False]
      apply ih
      rw [outcomeFor_answer_other role company s a e ha]
      exact h

theorem outcomeFor_provision_filter (role : String) (company : Company V)
    (directory : List (User V)) (e : String) (answers : List Answer) :
    outcomeFor e (provision role company directory answers)
      = outcomeFor e (provision role company directory
          (answers.filter (fun a => decide (a.email = e)))) :=
  outcomeFor_foldl_filter role company e answers _ _ rfl

theorem findByExample_ne_none (directory : List (User V)) (company : Company V) (e : String)
    (hex : ∃ u ∈ directory, u.email = e ∧ u.companyId = company._id) :
    findByExample directory (exampleUser company e) ≠ none := by
  obtain ⟨u, hu, he, hc⟩ := hex
  intro hnone
  simp only [findByExample, List.find?_eq_none] at hnone
  have := hnone u hu
  simp [exampleUser, he, hc] at this

/-- With no "no such user" answer for an email there is no save call, no
successful save answer and no invite for it. -/
theorem provInv_no_absent {role : String} {company : Company V} {directory₀ : List (User V)}
    {s : ProvState V} (inv : ProvInv role company directory₀ s) (e : String)
    (habs : ProvEvent.lookupAnswered e false none ∉ s.trace) :
    (∀ u : User V, ProvEvent.saveRequested u ∈ s.trace → u.email ≠ e) ∧
    (∀ u : User V, ProvEvent.saveAnswered u false ∈ s.trace → u.email ≠ e) ∧
    ProvEvent.invite e ∉ s.trace ∧
    (∀ u ∈ s.directory, u.email = e → u ∈ directory₀) := by
  have h0 : s.trace.count (ProvEvent.lookupAnswered e false none) = 0 :=
    List.count_eq_zero.mpr habs
  have h1 := inv.requested e
  have h2 := inv.saves_eq e
  have h3 := inv.invites_eq e
  have hreq : ∀ u : User V, ProvEvent.saveRequested u ∈ s.trace → u.email ≠ e := by
    intro u hu he
    have hu' := inv.users_eq u (Or.inl hu)
    rw [he] at hu'
    rw [hu'] at hu
    have := List.one_le_count_iff.mpr hu
    omega
  have hsaved : ∀ u : User V, ProvEvent.saveAnswered u false ∈ s.trace → u.email ≠ e := by
    intro u hu he
    have hu' := inv.users_eq u (Or.inr (Or.inr hu))
    rw [he] at hu'
    rw [hu'] at hu
    have := List.one_le_count_iff.mpr hu
    omega
  refine ⟨hreq, hsaved, ?_, ?_⟩
  · intro hinv
    have := List.one_le_count_iff.mpr hinv
    omega
  · intro u hu he
    rw [inv.directory_eq, List.mem_append] at hu
    rcases hu with hu | hu
    · exact hu
    · obtain ⟨ev, hev, hsome⟩ := List.mem_filterMap.mp hu
      cases ev with
      | saveAnswered u' err =>
        cases err with
        | true => simp [ProvEvent.savedUser?] at hsome
        | false =>
          simp only [ProvEvent.savedUser?, Option.some.injEq] at hsome
          subst hsome
          exact absurd he (hsaved _ hev)
      | _ => simp [ProvEvent.savedUser?] at hsome

end Provisioning

/-! ## Claims about the default calendar -/

section CalendarClaims
open Moment

/-- C1: for every creation instant `now` read by both clock reads,
`generateDefaultPeriods` returns exactly 54 periods, every period has
`start ≤ end`, and for every `i` in `0..52` the end of period `i` plus one
day (86 400 000 ms) is the start of period `i + 1`; so consecutive periods
neither overlap nor leave a gap. -/
theorem generateDefaultPeriods_tiles (now : Int) :
    (generateDefaultPeriods now now).length = 54 ∧
    (∀ p ∈ generateDefaultPeriods now now, p.start ≤ p.end_) ∧
    (∀ i, i < 53 → ∃ p q,
      (generateDefaultPeriods now now)[i]? = some p ∧
      (generateDefaultPeriods now now)[i + 1]? = some q ∧
      p.end_ + 86400000 = q.start ∧ p.end_ < q.start) := by
  rw [generateDefaultPeriods_eq]
  refine ⟨by simp, ?_, ?_⟩
  · intro p hp
    rcases List.mem_cons.mp hp with h | h
    · subst h
      exact endOfWeek_locale_ge now
    · obtain ⟨k, _, rfl⟩ := List.mem_map.mp h
      exact (laterWeek_facts now k).2.2.2.2.2
  · intro i hi
    cases i with
    | zero =>
      refine ⟨{ start := now, end_ := endOfWeek localeDow now },
        laterWeek (endOfWeek localeDow now) 0, rfl, rfl, ?_, ?_⟩ <;>
      simp only [laterWeek, MS_PER_DAY] <;> omega
    | succ j =>
      have hj : j < 53 := by omega
      have hj1 : j + 1 < 53 := by omega
      refine ⟨laterWeek (endOfWeek localeDow now) j,
        laterWeek (endOfWeek localeDow now) (j + 1), ?_, ?_, ?_, ?_⟩
      · simp [List.getElem?_range, hj]
      · simp [List.getElem?_range, hj1]
      · simp only [laterWeek, MS_PER_DAY]
        push_cast
        omega
      · simp only [laterWeek, MS_PER_DAY]
        push_cast
        omega

/-- C2 as stated fails: at `now = 1446638400000` (Wednesday
2015-11-04T12:00:00.000Z) the first period ends at 1 446 940 799 999
(Saturday 2015-11-07T23:59:59.999Z), while the ISO week of that instant ends
at 1 447 027 199 999 (Sunday 2015-11-08T23:59:59.999Z). -/
theorem firstPeriod_end_not_isoWeek :
    (generateDefaultPeriods 1446638400000 1446638400000).head?
      = some { start := 1446638400000, end_ := 1446940799999 } ∧
    endOfIsoWeek 1446638400000 = 1447027199999 ∧
    day 1446638400000 = 3 ∧ day 1446940799999 = 6 ∧ day 1447027199999 = 0 ∧
    (generateDefaultPeriods 1446638400000 1446638400000).head?
      ≠ some { start := 1446638400000, end_ := endOfIsoWeek 1446638400000 } := by
  rw [generateDefaultPeriods_eq]
  decide

/-- C2 amended: for every creation instant `now`, the first period has
`start = now` and `end` the end of the week of moment's `en` locale that
contains `now`: that week starts on a Sunday at 00:00:00.000 UTC, at or
before `now`, and the period ends 7 days less 1 ms later, on the Saturday
at 23:59:59.999 UTC, at or after `now`. -/
theorem firstPeriod_localeWeek (now : Int) :
    (generateDefaultPeriods now now).head?
      = some { start := now, end_ := endOfWeek localeDow now } ∧
    day (startOfWeek localeDow now) = 0 ∧
    startOfWeek localeDow now % MS_PER_DAY = 0 ∧
    startOfWeek localeDow now ≤ now ∧
    now ≤ endOfWeek localeDow now ∧
    endOfWeek localeDow now = startOfWeek localeDow now + 7 * MS_PER_DAY - 1 ∧
    day (endOfWeek localeDow now) = 6 ∧
    endOfWeek localeDow now % MS_PER_DAY = MS_PER_DAY - 1 := by
  rw [generateDefaultPeriods_eq]
  refine ⟨rfl, ?_⟩
  simp only [endOfWeek, startOfWeek, startOfDay, weekday, day, MS_PER_DAY, localeDow]
  refine ⟨?_, ?_, ?_, ?_, trivial, ?_, ?_⟩ <;> omega

/-- C3: for every list of periods, `generateDefaultValues` is the
concatenation, in period order, of the entry `{date: start, dayId: 1}` when
the start is a weekend followed by the entry `{date: end, dayId: 1}` when
the end is a weekend; every emitted date is a weekend, every emitted
`dayId` is `Weekend.id`, and the output has at most two entries per
period. -/
theorem generateDefaultValues_spec (periods : List Period) :
    generateDefaultValues periods = periods.flatMap weekendEntries ∧
    (∀ v ∈ generateDefaultValues periods,
      isWeekend v.date = true ∧ v.dayId = Weekend.id ∧
      ∃ p ∈ periods, v.date = p.start ∨ v.date = p.end_) ∧
    (∀ p ∈ periods, (weekendEntries p).length ≤ 2) ∧
    (generateDefaultValues periods).length ≤ 2 * periods.length := by
  have h : generateDefaultValues periods = periods.flatMap weekendEntries := by
    simp [generateDefaultValues, foldl_pushPeriodValues]
  refine ⟨h, ?_, fun p _ => weekendEntries_length_le p, ?_⟩
  · intro v hv
    rw [h] at hv
    obtain ⟨p, hp, hvp⟩ := List.mem_flatMap.mp hv
    obtain ⟨h1, h2, h3⟩ := mem_weekendEntries hvp
    exact ⟨h1, h2, p, hp, h3⟩
  · rw [h]
    exact flatMap_weekendEntries_length_le periods

/-- C4: for every instant `d`, `isWeekend d` holds exactly when the UTC
day of `d` is the first or the last day of its week, for the week that
`generateDefaultPeriods` closes with `endOf('week')` (locale weekday 0 or
6, that is the calendar day of `startOf('week')` or of `endOf('week')`);
and the end of the week of every instant is a weekend. -/
theorem isWeekend_iff_week_boundary (d : Int) :
    (isWeekend d = true ↔ weekday localeDow d = 0 ∨ weekday localeDow d = 6) ∧
    (isWeekend d = true ↔
      d / MS_PER_DAY = startOfWeek localeDow d / MS_PER_DAY ∨
      d / MS_PER_DAY = endOfWeek localeDow d / MS_PER_DAY) ∧
    isWeekend (endOfWeek localeDow d) = true := by
  refine ⟨?_, ?_, isWeekend_endOfWeek_locale d⟩
  · simp only [isWeekend, weekday, day, MS_PER_DAY, localeDow, beq_iff_eq]
    rcases dayIndex_cases d with h | h | h | h | h | h | h <;> rw [h] <;> decide
  · simp only [isWeekend, endOfWeek, startOfWeek, startOfDay, weekday, day, MS_PER_DAY,
      localeDow, beq_iff_eq]
    rcases dayIndex_cases d with h | h | h | h | h | h | h <;> rw [h] <;> norm_num <;> omega

/-- C10: for every creation instant `now`, each of the 53 periods after
the first starts on the first day of a week and ends on the last day of
that same week, the first period ends on a weekend date, and the default
company has exactly 108 default values when `now` is a weekend date and
exactly 107 when it is not. -/
theorem generateDefaultCompany_defaultValues_length (now : Int) :
    ((generateDefaultCompany now now).periods.tail.length = 53) ∧
    (∀ p ∈ (generateDefaultCompany now now).periods.tail,
      weekday localeDow p.start = 0 ∧ weekday localeDow p.end_ = 6 ∧
      p.end_ = endOfWeek localeDow p.start ∧
      isWeekend p.start = true ∧ isWeekend p.end_ = true) ∧
    (∀ p, (generateDefaultCompany now now).periods.head? = some p →
      isWeekend p.end_ = true) ∧
    (generateDefaultCompany now now).defaultValues.length
      = (if isWeekend now = true then 108 else 107) := by
  simp only [generateDefaultCompany, constructCompany, generateDefaultPeriods_eq,
    List.tail_cons, List.head?_cons, Option.some.injEq]
  refine ⟨by simp, ?_, ?_, ?_⟩
  · intro p hp
    obtain ⟨k, _, rfl⟩ := List.mem_map.mp hp
    obtain ⟨h1, h2, h3, h4, h5, _⟩ := laterWeek_facts now k
    exact ⟨h3, h4, h5, h1, h2⟩
  · intro p hp
    subst hp
    exact isWeekend_endOfWeek_locale now
  · rw [(generateDefaultValues_flatMap _), List.flatMap_cons, List.length_append,
      flatMap_laterWeek_length]
    simp only [weekendEntries, isWeekend_endOfWeek_locale, if_true, List.length_append,
      List.length_range]
    by_cases h : isWeekend now = true <;> simp [h]

end CalendarClaims

/-! ## Claims about the request handlers -/

section HandlerClaims
variable {V : Type}

/-- C5: when `restUpdateCompany` answers with the saved company, it has
sent exactly one bulk update to the projects, and on every project
collection that update sets, on each project whose `companyId` equals the
saved company's `_id`, the five properties `template`, `periods`,
`defaultValues`, `dayTypes` and `availablePositions` to the saved company's
values and leaves every other property as it was; a project with another
`companyId` is left as it was. -/
theorem restUpdateCompany_cascade [DecidableEq V] (company savedCompany : Company V)
    (reply : SaveReply V) (next : Continuation) (projects : List (Doc V))
    (hsaved : Event.json (some savedCompany) ∈ restUpdateCompany company reply next) :
    ∃ (request : UpdateRequest V) (projects' : List (Doc V)),
      projectsUpdates (restUpdateCompany company reply next) = [request] ∧
      request.companyId = savedCompany._id ∧
      Mongo.update request projects = projects' ∧
      projects'.length = projects.length ∧
      ∀ (i : Nat) (project : Doc V), projects[i]? = some project →
        ∃ project' : Doc V, projects'[i]? = some project' ∧
          (project.get "companyId" ≠ savedCompany._id → project' = project) ∧
          (project.get "companyId" = savedCompany._id →
            project'.get "template" = savedCompany.fields.get "template" ∧
            project'.get "periods" = savedCompany.fields.get "periods" ∧
            project'.get "defaultValues" = savedCompany.fields.get "defaultValues" ∧
            project'.get "dayTypes" = savedCompany.fields.get "dayTypes" ∧
            project'.get "availablePositions"
              = savedCompany.fields.get "availablePositions" ∧
            ∀ key, key ∉ ["template", "periods", "defaultValues", "dayTypes",
                "availablePositions"] → project'.get key = project.get key) := by
  obtain ⟨_, _, htrace⟩ := restUpdateCompany_of_json company savedCompany reply next hsaved
  refine ⟨{ companyId := savedCompany._id, set := cascadeSet savedCompany, multi := true },
    _, ?_, rfl, rfl, ?_, ?_⟩
  · rw [htrace]
    cases savedCompany._id <;> rfl
  · rw [Mongo.update_multi _ rfl, List.length_map]
  · intro i project hi
    rw [Mongo.update_multi _ rfl, List.getElem?_map, hi]
    refine ⟨_, rfl, ?_, ?_⟩
    · intro hne
      simp [hne]
    · intro heq
      simp only [heq, if_true]
      obtain ⟨h1, h2, h3, h4, h5⟩ := applySet_cascadeSet_get savedCompany project
      refine ⟨h1, h2, h3, h4, h5, ?_⟩
      intro key hkey
      apply applySet_get_other
      intro kv hkv e
      apply hkey
      simp only [cascadeSet, List.mem_cons, List.mem_singleton, List.not_mem_nil, or_false] at hkv
      rcases hkv with h | h | h | h | h <;> subst h <;> simp [← e]

/-- Witness for C5: the update of company 1 reaches the sample projects. -/
theorem restUpdateCompany_cascade_witness :
    Event.json (some updatePayload)
        ∈ restUpdateCompany updatePayload updateOk Continuation.requestNext ∧
    ∃ (request : UpdateRequest Nat) (projects' : List (Doc Nat)),
      projectsUpdates (restUpdateCompany updatePayload updateOk Continuation.requestNext)
        = [request] ∧
      request.companyId = updatePayload._id ∧
      Mongo.update request sampleProjects = projects' ∧
      projects'.length = sampleProjects.length := by
  refine ⟨by decide, ?_⟩
  obtain ⟨request, projects', h1, h2, h3, h4, _⟩ :=
    restUpdateCompany_cascade updatePayload updatePayload updateOk Continuation.requestNext
      sampleProjects (by decide)
  exact ⟨request, projects', h1, h2, h3, h4⟩

/-- C8, the code at a failing lookup: whatever error the lookup reports,
`restFindById` sets its code to 400 and then calls the `next` of the inner
callback, which is `undefined`; a `TypeError` is thrown, the error
continuation of the request is never called and no JSON body is sent. -/
theorem restFindById_lookup_error (err : StoreError) (company : Option (Company V))
    (next : Continuation) :
    restFindById (some err, company) next = [Event.log "debug", Event.typeError] ∧
    (∀ e : StoreError, Event.next e ∉ restFindById (some err, company) next) ∧
    (∀ body : Option (Company V), Event.json body ∉ restFindById (some err, company) next) := by
  have h : restFindById (some err, company) next
      = ([Event.log "debug", Event.typeError] : List (Event V)) := rfl
  rw [h]
  simp

/-- C9 as stated fails: the stored company 1 is owned by user 7; an update
payload with the same `_id` and `ownerId` 8 is sent to the store by
`restUpdateCompany` and saved successfully, and the stored company of that
`_id` is then owned by user 8. -/
theorem restUpdateCompany_overwrites_ownerId :
    updatePayload._id = storedCompany._id ∧
    storedCompany.fields.get "ownerId" = some 7 ∧
    Mongo.findOne [storedCompany] (some 1) = some storedCompany ∧
    restUpdateCompany updatePayload updateOk Continuation.requestNext
      = [Event.log "debug",
         Event.companiesSave updatePayload,
         Event.projectsUpdate
           { companyId := some 1, set := cascadeSet updatePayload, multi := true },
         Event.createUsersByEmails updatePayload,
         Event.json (some updatePayload),
         Event.log "debug"] ∧
    (Mongo.findOne
        (companiesAfterUpdate [storedCompany] updatePayload updateOk Continuation.requestNext)
        (some 1)).map
        (fun c => c.fields.get "ownerId") = some (some 8) := by
  decide

/-- C9 amended: for every company collection and every update payload
that carries an `_id`, `restUpdateCompany` sends exactly the payload, as it
came in, to `companies.save`; once that save succeeded the stored company of
that `_id` is the payload itself, so its `ownerId` is the payload's
`ownerId`, and it equals the `ownerId` of the company stored before exactly
when the payload carries that same value. -/
theorem restUpdateCompany_stores_payload [DecidableEq V] (companies : List (Company V))
    (company : Company V) (reply : SaveReply V) (next : Continuation)
    (hid : company._id ≠ none) (herr : reply.err = none) :
    companiesSaves (restUpdateCompany company reply next) = [company] ∧
    Mongo.findOne (companiesAfterUpdate companies company reply next) company._id
      = some company ∧
    (Mongo.findOne (companiesAfterUpdate companies company reply next) company._id).map
        (fun c => c.fields.get "ownerId") = some (company.fields.get "ownerId") ∧
    ∀ stored : Company V, Mongo.findOne companies company._id = some stored →
      ((Mongo.findOne (companiesAfterUpdate companies company reply next) company._id).map
          (fun c => c.fields.get "ownerId") = some (stored.fields.get "ownerId")
        ↔ company.fields.get "ownerId" = stored.fields.get "ownerId") := by
  have hsent := companiesSaves_restUpdateCompany company reply next hid
  have h : Mongo.findOne (companiesAfterUpdate companies company reply next) company._id
      = some company := by
    unfold companiesAfterUpdate
    simp only [herr, hsent, List.foldl_cons, List.foldl_nil]
    exact Mongo.findOne_save company companies
  refine ⟨hsent, h, ?_, ?_⟩
  · rw [h, Option.map_some']
  · intro stored _
    rw [h, Option.map_some', Option.some.injEq]

/-- Witness for C9 amended, on the sample update: the payload replaces the
stored company, and the owner changes from 7 to 8. -/
theorem restUpdateCompany_stores_payload_witness :
    updatePayload._id ≠ none ∧ updateOk.err = none ∧
    companiesSaves (restUpdateCompany updatePayload updateOk Continuation.requestNext)
      = [updatePayload] ∧
    Mongo.findOne
        (companiesAfterUpdate [storedCompany] updatePayload updateOk Continuation.requestNext)
        updatePayload._id = some updatePayload ∧
    (Mongo.findOne
        (companiesAfterUpdate [storedCompany] updatePayload updateOk Continuation.requestNext)
        updatePayload._id).map (fun c => c.fields.get "ownerId") = some (some 8) :=
  ⟨by decide, by decide,
    (restUpdateCompany_stores_payload [storedCompany] updatePayload updateOk
      Continuation.requestNext (by decide) (by decide)).1,
    (restUpdateCompany_stores_payload [storedCompany] updatePayload updateOk
      Continuation.requestNext (by decide) (by decide)).2.1,
    (restUpdateCompany_stores_payload [storedCompany] updatePayload updateOk
      Continuation.requestNext (by decide) (by decide)).2.2.1⟩

end HandlerClaims

/-! ## Claims about user provisioning -/

section ProvisioningClaims
variable {V : Type} [DecidableEq V]

/-- C6: provisioning is idempotent.  For every company, every directory
and every email for which the directory already holds a user with that email
and the company's id, a provisioning pass, whatever the order and the
failures of the directory's answers, calls `users.save` for no user of that
email, sends no invite to it and adds no user of that email; and when this
holds for every email of the company, the pass leaves the directory as it
was, saves nothing and sends no invite at all. -/
theorem createUsersByEmails_existing_user (role : String) (company : Company V)
    (directory : List (User V)) (answers : List Answer) (e : String)
    (hex : ∃ u ∈ directory, u.email = e ∧ u.companyId = company._id) :
    ((∀ u : User V,
        ProvEvent.saveRequested u ∈ (provision role company directory answers).trace →
        u.email ≠ e) ∧
      ProvEvent.invite e ∉ (provision role company directory answers).trace ∧
      (∀ u ∈ (provision role company directory answers).directory,
        u.email = e → u ∈ directory)) ∧
    ((∀ e' ∈ company.emailList, ∃ u ∈ directory, u.email = e' ∧ u.companyId = company._id) →
      (provision role company directory answers).directory = directory ∧
      (∀ u : User V,
        ProvEvent.saveRequested u ∉ (provision role company directory answers).trace) ∧
      (∀ e' : String,
        ProvEvent.invite e' ∉ (provision role company directory answers).trace)) := by
  have inv := provInv_provision role company directory answers
  have key : ∀ e' : String,
      (∃ u ∈ directory, u.email = e' ∧ u.companyId = company._id) →
      ProvEvent.lookupAnswered e' false none
        ∉ (provision role company directory answers).trace := by
    intro e' hex' habs
    exact findByExample_ne_none directory company e' hex' (inv.absent_none e' habs)
  constructor
  · obtain ⟨h1, _, h3, h4⟩ := provInv_no_absent inv e (key e hex)
    exact ⟨h1, h3, h4⟩
  · intro hall
    have habs : ∀ e' : String,
        ProvEvent.lookupAnswered e' false none
          ∉ (provision role company directory answers).trace := by
      intro e' h
      by_cases hmem : e' ∈ company.emailList
      · exact key e' (hall e' hmem) h
      · have h1 := inv.lookups_le e'
        have h2 := List.one_le_count_iff.mpr h
        have h3 := List.count_eq_zero.mpr hmem
        omega
    refine ⟨?_, ?_, ?_⟩
    · have hnil : List.filterMap ProvEvent.savedUser?
          (provision role company directory answers).trace = [] := by
        apply List.eq_nil_iff_forall_not_mem.mpr
        intro u hu
        obtain ⟨ev, hev, hsome⟩ := List.mem_filterMap.mp hu
        cases ev with
        | saveAnswered u' err =>
          cases err with
          | true => simp [ProvEvent.savedUser?] at hsome
          | false => exact (provInv_no_absent inv u'.email (habs u'.email)).2.1 u' hev rfl
        | _ => simp [ProvEvent.savedUser?] at hsome
      rw [inv.directory_eq, hnil, List.append_nil]
    · intro u hu
      exact (provInv_no_absent inv u.email (habs u.email)).1 u hu rfl
    · intro e' he'
      exact (provInv_no_absent inv e' (habs e')).2.2.1 he'

/-- Witness for C6: `a@x.com` is already in the sample directory. -/
theorem createUsersByEmails_existing_user_witness :
    (∃ u ∈ sampleDirectory, u.email = "a@x.com" ∧ u.companyId = invitingCompany._id) ∧
    ProvEvent.invite "a@x.com" ∉
      (provision "Employee" invitingCompany sampleDirectory
        [Answer.lookup "b@x.com" false, Answer.lookup "a@x.com" false,
         Answer.save "b@x.com" false]).trace :=
  ⟨by decide,
    (createUsersByEmails_existing_user "Employee" invitingCompany sampleDirectory
      [Answer.lookup "b@x.com" false, Answer.lookup "a@x.com" false,
       Answer.save "b@x.com" false] "a@x.com" (by decide)).1.2.1⟩

/-- C7: for every company whose emails are pairwise distinct, every
directory, every order and choice of failures of the directory's answers,
and every email `e` of the company:
* once the directory has answered the lookup for `e` without error and
  without a user, which it does only if it held no user of that email and
  company, `users.save` has been called exactly once for `e`, with the user
  `{email: e, companyId: company._id, displayName: e, role: EMPLOYEE_ROLE}`;
* exactly one invite has been sent to `e` if the directory has answered
  that save without error, the user then being in the directory, and none
  otherwise;
* after the directory has answered the lookup, or the save, for `e` with an
  error there is no invite to `e` and no new user of that email in the
  directory, and after a failed lookup no save call either;
* what happens about `e` depends on the answers for `e` alone: a pass whose
  answers for `e` are the same, whatever the answers and failures for the
  other emails, has the same outcome for `e`. -/
theorem createUsersByEmails_new_user (role : String) (company : Company V)
    (directory : List (User V)) (answers : List Answer) (e : String)
    (hnodup : company.emailList.Nodup) (he : e ∈ company.emailList) :
    (ProvEvent.lookupAnswered e false none
        ∈ (provision role company directory answers).trace →
      findByExample directory (exampleUser company e) = none ∧
      (provision role company directory answers).trace.count
          (ProvEvent.saveRequested (newUser role company e)) = 1 ∧
      ∀ u : User V,
        ProvEvent.saveRequested u ∈ (provision role company directory answers).trace →
        u.email = e →
        u = { email := e, companyId := company._id, displayName := some e,
              role := some role }) ∧
    ((provision role company directory answers).trace.count (ProvEvent.invite e)
      = (if ProvEvent.saveAnswered (newUser role company e) false
            ∈ (provision role company directory answers).trace then 1 else 0)) ∧
    (ProvEvent.saveAnswered (newUser role company e) false
        ∈ (provision role company directory answers).trace →
      newUser role company e ∈ (provision role company directory answers).directory) ∧
    (ProvEvent.lookupAnswered e true none
        ∈ (provision role company directory answers).trace →
      (∀ u : User V,
        ProvEvent.saveRequested u ∈ (provision role company directory answers).trace →
        u.email ≠ e) ∧
      ProvEvent.invite e ∉ (provision role company directory answers).trace ∧
      ∀ u ∈ (provision role company directory answers).directory,
        u.email = e → u ∈ directory) ∧
    (ProvEvent.saveAnswered (newUser role company e) true
        ∈ (provision role company directory answers).trace →
      ProvEvent.invite e ∉ (provision role company directory answers).trace ∧
      ∀ u ∈ (provision role company directory answers).directory,
        u.email = e → u ∈ directory) ∧
    (∀ answers' : List Answer,
      answers'.filter (fun a => decide (a.email = e))
        = answers.filter (fun a => decide (a.email = e)) →
      outcomeFor e (provision role company directory answers')
        = outcomeFor e (provision role company directory answers)) := by
  have inv := provInv_provision role company directory answers
  have hone : company.emailList.count e = 1 := List.count_eq_one_of_mem hnodup he
  have h1 := inv.lookups_le e
  have h2 := inv.requested e
  have h3 := inv.saves_eq e
  have h4 := inv.invites_eq e
  refine ⟨?_, ?_, ?_, ?_, ?_, ?_⟩
  · intro habs
    have := List.one_le_count_iff.mpr habs
    refine ⟨inv.absent_none e habs, by omega, ?_⟩
    intro u hu hue
    have := inv.users_eq u (Or.inl hu)
    rw [hue] at this
    exact this
  · by_cases hs : ProvEvent.saveAnswered (newUser role company e) false
        ∈ (provision role company directory answers).trace
    · have := List.one_le_count_iff.mpr hs
      simp only [hs, if_true]
      omega
    · have := List.count_eq_zero.mpr hs
      simp only [hs, if_false]
      omega
  · intro hs
    rw [inv.directory_eq, List.mem_append]
    right
    exact List.mem_filterMap.mpr ⟨_, hs, rfl⟩
  · intro herr
    have := List.one_le_count_iff.mpr herr
    have habs : ProvEvent.lookupAnswered e false none
        ∉ (provision role company directory answers).trace := by
      intro h
      have := List.one_le_count_iff.mpr h
      omega
    obtain ⟨a1, _, a3, a4⟩ := provInv_no_absent inv e habs
    exact ⟨a1, a3, a4⟩
  · intro herr
    have hge := List.one_le_count_iff.mpr herr
    have hzero : (provision role company directory answers).trace.count
        (ProvEvent.saveAnswered (newUser role company e) false) = 0 := by omega
    refine ⟨?_, ?_⟩
    · intro hinv
      have := List.one_le_count_iff.mpr hinv
      omega
    · intro u hu hue
      rw [inv.directory_eq, List.mem_append] at hu
      rcases hu with hu | hu
      · exact hu
      · obtain ⟨ev, hev, hsome⟩ := List.mem_filterMap.mp hu
        cases ev with
        | saveAnswered u' err =>
          cases err with
          | true => simp [ProvEvent.savedUser?] at hsome
          | false =>
            simp only [ProvEvent.savedUser?, Option.some.injEq] at hsome
            subst hsome
            have hu' := inv.users_eq _ (Or.inr (Or.inr hev))
            rw [hue] at hu'
            rw [hu'] at hev
            have := List.one_le_count_iff.mpr hev
            omega
        | _ => simp [ProvEvent.savedUser?] at hsome
  · intro answers' hsame
    rw [outcomeFor_provision_filter role company directory e answers',
      outcomeFor_provision_filter role company directory e answers, hsame]

/-- Witness for C7: two new invitees; the lookup of the first fails, the
second is looked up, not found, saved, and invited exactly once. -/
theorem createUsersByEmails_new_user_witness :
    invitingCompany.emailList.Nodup ∧ "b@x.com" ∈ invitingCompany.emailList ∧
    ProvEvent.lookupAnswered "b@x.com" false none ∈
      (provision "Employee" invitingCompany ([] : List (User Nat))
        [Answer.lookup "a@x.com" true, Answer.lookup "b@x.com" false,
         Answer.save "b@x.com" false]).trace ∧
    ProvEvent.saveAnswered (newUser "Employee" invitingCompany "b@x.com") false ∈
      (provision "Employee" invitingCompany ([] : List (User Nat))
        [Answer.lookup "a@x.com" true, Answer.lookup "b@x.com" false,
         Answer.save "b@x.com" false]).trace ∧
    (provision "Employee" invitingCompany ([] : List (User Nat))
        [Answer.lookup "a@x.com" true, Answer.lookup "b@x.com" false,
         Answer.save "b@x.com" false]).trace.count
      (ProvEvent.saveRequested (newUser "Employee" invitingCompany "b@x.com")) = 1 ∧
    (provision "Employee" invitingCompany ([] : List (User Nat))
        [Answer.lookup "a@x.com" true, Answer.lookup "b@x.com" false,
         Answer.save "b@x.com" false]).trace.count (ProvEvent.invite "b@x.com") = 1 ∧
    newUser "Employee" invitingCompany "b@x.com" ∈
      (provision "Employee" invitingCompany ([] : List (User Nat))
        [Answer.lookup "a@x.com" true, Answer.lookup "b@x.com" false,
         Answer.save "b@x.com" false]).directory :=
  ⟨by decide, by decide, by decide, by decide,
    ((createUsersByEmails_new_user "Employee" invitingCompany ([] : List (User Nat))
      [Answer.lookup "a@x.com" true, Answer.lookup "b@x.com" false,
       Answer.save "b@x.com" false] "b@x.com" (by decide) (by decide)).1 (by decide)).2.1,
    ((createUsersByEmails_new_user "Employee" invitingCompany ([] : List (User Nat))
      [Answer.lookup "a@x.com" true, Answer.lookup "b@x.com" false,
       Answer.save "b@x.com" false] "b@x.com" (by decide) (by decide)).2.1).trans
      (if_pos (by decide)),
    (createUsersByEmails_new_user "Employee" invitingCompany ([] : List (User Nat))
      [Answer.lookup "a@x.com" true, Answer.lookup "b@x.com" false,
       Answer.save "b@x.com" false] "b@x.com" (by decide) (by decide)).2.2.1 (by decide)⟩

end ProvisioningClaims

end Mifort
